import Mathlib

set_option maxHeartbeats 1000000

/-
Shallow embedding of src/src/plugins/remote-cache/storage/github-actions-cache.ts.

HTTP responses are modelled as explicit inputs (status, parsed body), and the
network effects of the upload finalisation as an explicit trace of issued calls
together with a response oracle `resp : Nat → Bool` giving the `res.ok` value of
the n-th call issued.  Byte buffers are `List Nat`.  JavaScript truthiness of an
optional string (`!process.env.X`, `!body.archiveLocation`) is modelled by
`truthyOpt` (false exactly on `none` and `some ""`).
-/

namespace GhaCache

/-- The fixed protocol version constant `VERSION = '10'` (line 6). -/
def VERSION : String := "10"

/-- The `res.ok` predicate of fetch responses: status in the range 200-299. -/
def resOk (status : Nat) : Bool := decide (200 ≤ status ∧ status < 300)

/-- JavaScript truthiness of an optional string: `undefined` and the empty
string are falsy, every other string is truthy. -/
def truthyOpt : Option String → Bool
  | none => false
  | some s => decide (s ≠ "")

/-- Error values thrown by the client: `NotFoundError` (line 36), a JSON parse
failure raised by `res.json()`, or a plain `Error` with a message. -/
inductive CacheError where
  | notFound : CacheError
  | jsonError (msg : String) : CacheError
  | generic (msg : String) : CacheError
deriving DecidableEq, Repr

/-- The process environment slice read by `fromEnv` (lines 41-52). -/
structure Env where
  ACTIONS_CACHE_URL : Option String
  ACTIONS_RUNTIME_TOKEN : Option String
deriving DecidableEq, Repr

/-- The client state: constructor arguments `url` and `token` (line 39). -/
structure GithubActionsCache where
  url : String
  token : String
deriving DecidableEq, Repr

/-- Embedding of `GithubActionsCache.fromEnv` (lines 41-52): throw a
configuration error if either environment value is absent or empty (JS
falsiness), otherwise construct the client from the two values. -/
def GithubActionsCache.fromEnv (env : Env) : Except String GithubActionsCache :=
  if truthyOpt env.ACTIONS_CACHE_URL = false then
    Except.error ("missing ACTIONS_CACHE_URL")
  else if truthyOpt env.ACTIONS_RUNTIME_TOKEN = false then
    Except.error ("missing ACTIONS_RUNTIME_TOKEN")
  else
    Except.ok
      { url := env.ACTIONS_CACHE_URL.getD ""
        token := env.ACTIONS_RUNTIME_TOKEN.getD "" }

/-- The response to the query GET of `getMeta` (lines 59-69): its status and,
when `res.json()` is consulted, either a parse failure (the rejection message)
or the parsed `archiveLocation` field of the body (`none` when the field is
absent; `some ""` is also JS-falsy). -/
structure QueryResponse where
  status : Nat
  body : Except String (Option String)
deriving Repr

/-- Embedding of `GithubActionsCache.getMeta` (lines 54-78): a non-ok response
throws `NotFoundError`; a JSON parse failure propagates as its own error; a
parsed body whose `archiveLocation` is falsy throws `NotFoundError`; otherwise
the location is returned. -/
def GithubActionsCache.getMeta (c : GithubActionsCache) (keys : List String)
    (version : String) (res : QueryResponse) : Except CacheError String :=
  if resOk res.status = false then
    Except.error CacheError.notFound
  else
    match res.body with
    | Except.error e => Except.error (CacheError.jsonError e)
    | Except.ok archiveLocation =>
      if truthyOpt archiveLocation = false then
        Except.error CacheError.notFound
      else
        Except.ok (archiveLocation.getD "")

/-- The response to the blob GET of `get` (lines 83-87): its status and its
body stream (`none` models a null `res.body`). -/
structure BlobResponse where
  status : Nat
  body : Option String
deriving DecidableEq, Repr

/-- Embedding of `GithubActionsCache.get` (lines 80-88): resolve the entry via
`getMeta` (propagating its errors), then fetch the returned location; a non-ok
response or a missing body throws a plain `Error`, otherwise the body stream
is returned. -/
def GithubActionsCache.get (c : GithubActionsCache) (keys : List String)
    (version : String) (qres : QueryResponse) (bres : BlobResponse) :
    Except CacheError String :=
  match c.getMeta keys version qres with
  | Except.error e => Except.error e
  | Except.ok _meta =>
    if resOk bres.status = false ∨ bres.body = none then
      Except.error (CacheError.generic "Failed to fetch blob")
    else
      Except.ok (bres.body.getD "")

/-- Embedding of the `exists` operation of `createGithubActionsCache`
(lines 18-32): call `getMeta [artifactPath] VERSION`, then invoke the callback
once with `(null, true)` on success, `(null, false)` on `NotFoundError`, and
`(err, false)` on any other error.  The result is the list of callback
invocations, each an `(err, exists)` pair. -/
def existsOp (c : GithubActionsCache) (artifactPath : String)
    (res : QueryResponse) : List (Option CacheError × Bool) :=
  match c.getMeta [artifactPath] VERSION res with
  | Except.ok _ => [(none, true)]
  | Except.error err =>
    if err = CacheError.notFound then
      [(none, false)]
    else
      [(some err, false)]

/-- The response to the reservation POST of `upload` (lines 93-109): its
status, the text used in the error message when not ok, and the parsed
`cacheId` field of the JSON body. -/
structure ReserveResponse where
  status : Nat
  bodyText : String
  cacheId : String
deriving DecidableEq, Repr

/-- The state of an `Upload` sink (lines 115-125): the constructor arguments
and the buffered payload, initialised to the empty buffer `Buffer.of()`. -/
structure Upload where
  cacheId : String
  url : String
  token : String
  data : List Nat
deriving DecidableEq, Repr

/-- Embedding of `GithubActionsCache.upload` (lines 90-112): if the
reservation response is not ok, throw an `Error` carrying the response text;
otherwise construct an `Upload` sink holding the returned `cacheId`, the url
and token, and an empty buffer. -/
def GithubActionsCache.upload (c : GithubActionsCache) (key version : String)
    (res : ReserveResponse) : Except CacheError Upload :=
  if resOk res.status = false then
    Except.error (CacheError.generic res.bodyText)
  else
    Except.ok { cacheId := res.cacheId, url := c.url, token := c.token, data := [] }

/-- Embedding of `Upload._write` (lines 127-135): replace the buffer by the
concatenation of the old buffer and the incoming chunk, then invoke the
callback with `null` (no error, modelled as `none`). -/
def Upload.writeStep (u : Upload) (chunk : List Nat) : Upload × Option String :=
  ({ u with data := u.data ++ chunk }, none)

/-- A sequence of `_write` calls applied in call order. -/
def Upload.writeAll (u : Upload) (cs : List (List Nat)) : Upload :=
  cs.foldl (fun a c => (a.writeStep c).1) u

/-- The fixed chunk size `CHUNK_SIZE = 32 * 1024 * 1024` (line 145). -/
def CHUNK_SIZE : Nat := 32 * 1024 * 1024

/-- Ceiling division: the value of `Math.ceil(this.data.length / CHUNK_SIZE)`
(line 146), exact for the integer lengths involved. -/
def ceilDiv (a b : Nat) : Nat := (a + b - 1) / b

/-- JavaScript `slice(a, b)` on byte buffers (for `a ≤ b`, indices clamped to
the length): the elements at positions `[a, b)`. -/
def jsSlice (l : List Nat) (a b : Nat) : List Nat := (l.drop a).take (b - a)

/-- One chunk-upload PATCH (lines 155-171): its body and the three components
of its `Content-Range: bytes {start}-{end}/{total}` header.  The end offset
`i * CHUNK_SIZE + chunk.length - 1` is an integer in JS, hence `Int` here. -/
structure PatchCall where
  body : List Nat
  rangeStart : Nat
  rangeEnd : Int
  rangeTotal : Nat
deriving DecidableEq, Repr

/-- A network call issued by `completeUpload`: a chunk PATCH, or the finalize
POST whose body carries the total size (lines 181-196). -/
inductive UploadCall where
  | patch (p : PatchCall) : UploadCall
  | finalizePost (size : Nat) : UploadCall
deriving DecidableEq, Repr

/-- The PATCH call issued for chunk `i` (lines 149-171): the body is
`data.slice(i * CHUNK_SIZE, min((i + 1) * CHUNK_SIZE, data.length))` and the
header reads `bytes {i*CHUNK_SIZE}-{i*CHUNK_SIZE + chunk.length - 1}/{data.length}`. -/
def patchCallOf (data : List Nat) (i : Nat) : PatchCall :=
  let chunk := jsSlice data (i * CHUNK_SIZE) (min ((i + 1) * CHUNK_SIZE) data.length)
  { body := chunk
    rangeStart := i * CHUNK_SIZE
    rangeEnd := (i * CHUNK_SIZE + chunk.length : Int) - 1
    rangeTotal := data.length }

/-- The chunk loop of `completeUpload` (lines 148-177), starting at chunk `i`
with `n` chunks remaining: each iteration issues the PATCH for chunk `i` and
awaits its response `resp i`; a non-ok response throws, aborting the loop.
Returns the calls issued and whether the loop ran to completion. -/
def chunkLoop (data : List Nat) (resp : Nat → Bool) :
    Nat → Nat → List UploadCall × Bool
  | _, 0 => ([], true)
  | i, n + 1 =>
    let c := UploadCall.patch (patchCallOf data i)
    if resp i then
      let r := chunkLoop data resp (i + 1) n
      (c :: r.1, r.2)
    else
      ([c], false)

/-- Embedding of `Upload.completeUpload` (lines 143-200): run the chunk loop
over `ceil(data.length / CHUNK_SIZE)` chunks; if it completes, issue the
finalize POST carrying `data.length`, whose response (`resp` at the index
after the last chunk) decides overall success.  Returns the trace of issued
calls and overall success. -/
def Upload.completeUpload (u : Upload) (resp : Nat → Bool) :
    List UploadCall × Bool :=
  let chunks := ceilDiv u.data.length CHUNK_SIZE
  let r := chunkLoop u.data resp 0 chunks
  if r.2 then
    (r.1 ++ [UploadCall.finalizePost u.data.length], resp chunks)
  else
    r

/-- Whether a call is a chunk PATCH. -/
def isPatch : UploadCall → Bool
  | UploadCall.patch _ => true
  | UploadCall.finalizePost _ => false

/-- The start offset of a chunk PATCH, `none` for the finalize POST. -/
def patchStart : UploadCall → Option Nat
  | UploadCall.patch p => some p.rangeStart
  | UploadCall.finalizePost _ => none

end GhaCache

namespace GhaCache

/-- Prepending the PATCH for chunk `i` to the PATCHes for chunks
`i+1, ..., i+m` gives the PATCHes for chunks `i, ..., i+m`. -/
theorem cons_range_map (data : List Nat) (i m : Nat) :
    UploadCall.patch (patchCallOf data i) ::
      (List.range m).map (fun k => UploadCall.patch (patchCallOf data (i + 1 + k))) =
    (List.range (m + 1)).map (fun k => UploadCall.patch (patchCallOf data (i + k))) := by
  rw [List.range_succ_eq_map, List.map_cons, List.map_map]
  refine congrArg₂ List.cons (by simp) ?_
  apply List.map_congr_left
  intro k _
  show UploadCall.patch (patchCallOf data (i + 1 + k)) =
    UploadCall.patch (patchCallOf data (i + Nat.succ k))
  have h : i + 1 + k = i + Nat.succ k := by omega
  rw [h]

/-- When every response is ok, the chunk loop issues the PATCHes for chunks
`i, ..., i + n - 1` and completes. -/
theorem chunkLoop_all_ok (data : List Nat) (resp : Nat → Bool) :
    ∀ n i, (∀ k, k < n → resp (i + k) = true) →
      chunkLoop data resp i n =
        ((List.range n).map (fun k => UploadCall.patch (patchCallOf data (i + k))),
         true) := by
  intro n
  induction n with
  | zero => intro i _; rfl
  | succ n ih =>
    intro i h
    have h0 : resp i = true := by simpa using h 0 (Nat.succ_pos n)
    have hr := ih (i + 1) (fun k hk => by
      have := h (1 + k) (by omega)
      have heq : i + (1 + k) = i + 1 + k := by omega
      rwa [heq] at this)
    simp only [chunkLoop, h0, if_true, hr]
    rw [cons_range_map]

/-- If the chunk loop completed, every chunk response it awaited was ok. -/
theorem chunkLoop_ok_resp (data : List Nat) (resp : Nat → Bool) :
    ∀ n i, (chunkLoop data resp i n).2 = true → ∀ k, k < n → resp (i + k) = true := by
  intro n
  induction n with
  | zero => intro i _ k hk; exact absurd hk (Nat.not_lt_zero k)
  | succ n ih =>
    intro i h k hk
    cases hresp : resp i with
    | false => simp [chunkLoop, hresp] at h
    | true =>
      rcases Nat.eq_zero_or_pos k with rfl | hpos
      · simpa using hresp
      · simp only [chunkLoop, hresp, if_true] at h
        have := ih (i + 1) h (k - 1) (by omega)
        have heq : i + 1 + (k - 1) = i + k := by omega
        rwa [heq] at this

/-- If chunk `j` is the first whose response is not ok, the loop issues the
PATCHes for chunks `i, ..., i + j` and aborts: no later chunk is sent. -/
theorem chunkLoop_abort (data : List Nat) (resp : Nat → Bool) :
    ∀ j n i, j < n → resp (i + j) = false → (∀ k, k < j → resp (i + k) = true) →
      chunkLoop data resp i n =
        ((List.range (j + 1)).map (fun k => UploadCall.patch (patchCallOf data (i + k))),
         false) := by
  intro j
  induction j with
  | zero =>
    intro n i hj hfail _
    obtain ⟨m, rfl⟩ : ∃ m, n = m + 1 := ⟨n - 1, by omega⟩
    have h0 : resp i = false := by simpa using hfail
    simp [chunkLoop, h0, List.range_succ]
  | succ j ih =>
    intro n i hj hfail hok
    obtain ⟨m, rfl⟩ : ∃ m, n = m + 1 := ⟨n - 1, by omega⟩
    have h0 : resp i = true := by simpa using hok 0 (Nat.succ_pos j)
    have hr := ih m (i + 1) (by omega)
      (by
        have heq : i + 1 + j = i + Nat.succ j := by omega
        rwa [heq])
      (fun k hk => by
        have := hok (1 + k) (by omega)
        have heq : i + (1 + k) = i + 1 + k := by omega
        rwa [heq] at this)
    simp only [chunkLoop, h0, if_true, hr]
    rw [cons_range_map]

/-- The trace of the chunk loop is always the list of PATCHes for an initial
run of chunks starting at `i`. -/
theorem chunkLoop_shape (data : List Nat) (resp : Nat → Bool) :
    ∀ n i, ∃ m, m ≤ n ∧
      (chunkLoop data resp i n).1 =
        (List.range m).map (fun k => UploadCall.patch (patchCallOf data (i + k))) := by
  intro n
  induction n with
  | zero => intro i; exact ⟨0, Nat.le_refl 0, rfl⟩
  | succ n ih =>
    intro i
    cases hresp : resp i with
    | false =>
      refine ⟨1, by omega, ?_⟩
      simp [chunkLoop, hresp, List.range_succ]
    | true =>
      obtain ⟨m, hm, hshape⟩ := ih (i + 1)
      refine ⟨m + 1, by omega, ?_⟩
      simp only [chunkLoop, hresp, if_true, hshape]
      rw [cons_range_map]

/-- The payload length is at most `chunks * CHUNK_SIZE`. -/
theorem le_ceilDiv_mul (L : Nat) : L ≤ ceilDiv L CHUNK_SIZE * CHUNK_SIZE := by
  unfold ceilDiv CHUNK_SIZE
  have h1 := Nat.div_add_mod (L + 32 * 1024 * 1024 - 1) (32 * 1024 * 1024)
  have h2 := Nat.mod_lt (L + 32 * 1024 * 1024 - 1)
    (show 0 < 32 * 1024 * 1024 by norm_num)
  omega

/-- A chunk index below `chunks` starts strictly inside the payload. -/
theorem mul_lt_of_lt_ceilDiv {L i : Nat} (h : i < ceilDiv L CHUNK_SIZE) :
    i * CHUNK_SIZE < L := by
  unfold ceilDiv CHUNK_SIZE at *
  have h1 : (i + 1) * (32 * 1024 * 1024) ≤
      ((L + 32 * 1024 * 1024 - 1) / (32 * 1024 * 1024)) * (32 * 1024 * 1024) :=
    Nat.mul_le_mul_right _ (Nat.succ_le_of_lt h)
  have h2 := Nat.div_mul_le_self (L + 32 * 1024 * 1024 - 1) (32 * 1024 * 1024)
  omega

/-- The body of the PATCH for chunk `i` is the `i`-th length-`CHUNK_SIZE`
block of the payload (the last block possibly shorter). -/
theorem patch_body_take (data : List Nat) (i : Nat) :
    (patchCallOf data i).body = (data.drop (i * CHUNK_SIZE)).take CHUNK_SIZE := by
  simp only [patchCallOf, jsSlice]
  rcases le_total ((i + 1) * CHUNK_SIZE) data.length with h | h
  · rw [min_eq_left h]
    congr 1
    simp only [CHUNK_SIZE] at *
    omega
  · rw [min_eq_right h]
    rw [List.take_of_length_le, List.take_of_length_le] <;>
      · simp only [List.length_drop, CHUNK_SIZE] at *
        omega

/-- Splitting a list into consecutive `CHUNK_SIZE` blocks and flattening
recovers the list. -/
theorem flatten_chunks :
    ∀ (k : Nat) (l : List Nat), l.length ≤ k * CHUNK_SIZE →
      ((List.range k).map (fun i => (l.drop (i * CHUNK_SIZE)).take CHUNK_SIZE)).flatten
        = l := by
  intro k
  induction k with
  | zero =>
    intro l h
    have : l = [] := List.eq_nil_of_length_eq_zero (by omega)
    simp [this]
  | succ k ih =>
    intro l h
    rw [List.range_succ_eq_map, List.map_cons, List.map_map]
    simp only [List.flatten_cons]
    have hcomp :
        ((fun i => (l.drop (i * CHUNK_SIZE)).take CHUNK_SIZE) ∘ Nat.succ) =
          (fun i => ((l.drop CHUNK_SIZE).drop (i * CHUNK_SIZE)).take CHUNK_SIZE) := by
      funext i
      show (l.drop (Nat.succ i * CHUNK_SIZE)).take CHUNK_SIZE =
        ((l.drop CHUNK_SIZE).drop (i * CHUNK_SIZE)).take CHUNK_SIZE
      rw [List.drop_drop, Nat.succ_mul, Nat.add_comm (i * CHUNK_SIZE) CHUNK_SIZE]
    rw [hcomp]
    rw [ih (l.drop CHUNK_SIZE)
      (by
        simp only [List.length_drop, CHUNK_SIZE] at *
        omega)]
    simp

/-- When every response is ok, `completeUpload` issues the PATCHes for chunks
`0, ..., chunks - 1` followed by the finalize POST, and overall success is the
finalize response. -/
theorem completeUpload_trace_all_ok (u : Upload) (resp : Nat → Bool)
    (hresp : ∀ n, resp n = true) :
    u.completeUpload resp =
      ((List.range (ceilDiv u.data.length CHUNK_SIZE)).map
          (fun k => UploadCall.patch (patchCallOf u.data k)) ++
        [UploadCall.finalizePost u.data.length],
       resp (ceilDiv u.data.length CHUNK_SIZE)) := by
  have hloop := chunkLoop_all_ok u.data resp (ceilDiv u.data.length CHUNK_SIZE) 0
    (fun k _ => hresp (0 + k))
  simp only [Nat.zero_add] at hloop
  simp only [Upload.completeUpload, hloop, if_true]

/-- C6: the factory constructs a client iff both environment values are
present and non-empty; otherwise it fails with the corresponding
configuration error, and on success the client holds exactly the two values.
The embedding of `fromEnv` is a pure function of the environment: it issues
no network call and has no side effect. -/
theorem fromEnv_config (env : Env) :
    ((GithubActionsCache.fromEnv env).isOk = true ↔
      (truthyOpt env.ACTIONS_CACHE_URL = true ∧
       truthyOpt env.ACTIONS_RUNTIME_TOKEN = true)) ∧
    (truthyOpt env.ACTIONS_CACHE_URL = false →
      GithubActionsCache.fromEnv env = Except.error ("missing ACTIONS_CACHE_URL")) ∧
    (truthyOpt env.ACTIONS_CACHE_URL = true →
      truthyOpt env.ACTIONS_RUNTIME_TOKEN = false →
      GithubActionsCache.fromEnv env = Except.error ("missing ACTIONS_RUNTIME_TOKEN")) ∧
    (∀ u t, env.ACTIONS_CACHE_URL = some u → env.ACTIONS_RUNTIME_TOKEN = some t →
      truthyOpt env.ACTIONS_CACHE_URL = true →
      truthyOpt env.ACTIONS_RUNTIME_TOKEN = true →
      GithubActionsCache.fromEnv env = Except.ok ⟨u, t⟩) := by
  unfold GithubActionsCache.fromEnv
  refine ⟨?_, ?_, ?_, ?_⟩
  · constructor
    · intro h
      by_cases h1 : truthyOpt env.ACTIONS_CACHE_URL = false
      · simp [h1, Except.isOk, Except.toBool] at h
      · by_cases h2 : truthyOpt env.ACTIONS_RUNTIME_TOKEN = false
        · simp [h1, h2, Except.isOk, Except.toBool] at h
        · exact ⟨by revert h1; cases truthyOpt env.ACTIONS_CACHE_URL <;> simp,
                 by revert h2; cases truthyOpt env.ACTIONS_RUNTIME_TOKEN <;> simp⟩
    · rintro ⟨h1, h2⟩
      simp [h1, h2, Except.isOk, Except.toBool]
  · intro h1
    simp [h1]
  · intro h1 h2
    simp [h1, h2]
  · intro u t hu ht h1 h2
    rw [hu] at h1
    rw [ht] at h2
    simp [h1, h2, hu, ht]

/-- Witness for C6 at a concrete populated environment. -/
theorem fromEnv_config_witness :
    GithubActionsCache.fromEnv ⟨some "https://c/", some "tok"⟩ =
      Except.ok ⟨"https://c/", "tok"⟩ :=
  (fromEnv_config ⟨some "https://c/", some "tok"⟩).2.2.2 "https://c/" "tok"
    rfl rfl (by decide) (by decide)

/-- C8: if the reservation POST fails, `upload` fails with an error carrying
the response text and no sink is returned; if the reservation succeeds, the
returned sink stores the session identifier from the response body and starts
with an empty buffer. -/
theorem upload_reservation (c : GithubActionsCache) (key version : String)
    (res : ReserveResponse) :
    (resOk res.status = false →
      GithubActionsCache.upload c key version res =
        Except.error (CacheError.generic res.bodyText)) ∧
    (resOk res.status = true →
      GithubActionsCache.upload c key version res =
        Except.ok ⟨res.cacheId, c.url, c.token, []⟩) := by
  unfold GithubActionsCache.upload
  constructor
  · intro h
    simp [h]
  · intro h
    simp [h]

/-- Witness for C8: a failing reservation at status 500 and a succeeding one
at status 200. -/
theorem upload_reservation_witness :
    GithubActionsCache.upload ⟨"u", "t"⟩ "k" "10" ⟨500, "boom", "id"⟩ =
      Except.error (CacheError.generic "boom") ∧
    GithubActionsCache.upload ⟨"u", "t"⟩ "k" "10" ⟨200, "", "id7"⟩ =
      Except.ok ⟨"id7", "u", "t", []⟩ :=
  ⟨(upload_reservation ⟨"u", "t"⟩ "k" "10" ⟨500, "boom", "id"⟩).1 (by decide),
   (upload_reservation ⟨"u", "t"⟩ "k" "10" ⟨200, "", "id7"⟩).2 (by decide)⟩

/-- C9: the buffered payload after a sequence of write calls is the original
buffer followed by the concatenation of the written chunks in call order;
every single write appends its bytes at the end of the buffer, reports no
error (the callback receives `null`), and leaves all other sink fields
unchanged.  The embedding of `_write` is a pure state update: no network
call is modelled because the source performs none. -/
theorem write_appends (u : Upload) (cs : List (List Nat)) :
    (u.writeAll cs).data = u.data ++ cs.flatten ∧
    (u.writeAll cs).cacheId = u.cacheId ∧
    (u.writeAll cs).url = u.url ∧
    (u.writeAll cs).token = u.token ∧
    (∀ chunk, (u.writeStep chunk).2 = none ∧
      (u.writeStep chunk).1.data = u.data ++ chunk) := by
  refine ⟨?_, ?_, ?_, ?_, fun chunk => ⟨rfl, rfl⟩⟩ <;>
    induction cs generalizing u with
    | nil => simp [Upload.writeAll]
    | cons c cs ih =>
      simp only [Upload.writeAll, List.foldl_cons, List.flatten] at *
      have := ih ({ u with data := u.data ++ c })
      simp [Upload.writeAll, Upload.writeStep] at this ⊢
      simp [this]

/-- C3: a query response with status ≥ 400 makes `exists` report
`(null, false)` — never an error; a JSON parse failure on an ok response is
surfaced to the callback as an error (with `false`), not coerced to a plain
miss; and an ok response carrying a usable (non-empty) download location
makes `exists` report `(null, true)`. -/
theorem exists_error_mapping (c : GithubActionsCache) (p : String)
    (res : QueryResponse) :
    (400 ≤ res.status → existsOp c p res = [(none, false)]) ∧
    (∀ e, resOk res.status = true → res.body = Except.error e →
      existsOp c p res = [(some (CacheError.jsonError e), false)]) ∧
    (∀ s, resOk res.status = true → res.body = Except.ok (some s) → s ≠ "" →
      existsOp c p res = [(none, true)]) := by
  refine ⟨?_, ?_, ?_⟩
  · intro hst
    have hok : resOk res.status = false := by
      simp only [resOk, decide_eq_false_iff_not]
      omega
    simp [existsOp, GithubActionsCache.getMeta, hok]
  · intro e hok hbody
    simp [existsOp, GithubActionsCache.getMeta, hok, hbody]
  · intro s hok hbody hs
    simp [existsOp, GithubActionsCache.getMeta, hok, hbody, truthyOpt, hs]

/-- Witness for C3: status 500 yields a miss, a parse failure on status 200
surfaces the error, and a usable location on status 200 yields `true`. -/
theorem exists_error_mapping_witness :
    existsOp ⟨"u", "t"⟩ "k" ⟨500, Except.ok none⟩ = [(none, false)] ∧
    existsOp ⟨"u", "t"⟩ "k" ⟨200, Except.error "bad json"⟩ =
      [(some (CacheError.jsonError "bad json"), false)] ∧
    existsOp ⟨"u", "t"⟩ "k" ⟨200, Except.ok (some "https://loc")⟩ =
      [(none, true)] :=
  ⟨(exists_error_mapping ⟨"u", "t"⟩ "k" ⟨500, Except.ok none⟩).1 (by decide),
   (exists_error_mapping ⟨"u", "t"⟩ "k" ⟨200, Except.error "bad json"⟩).2.1
     "bad json" (by decide) rfl,
   (exists_error_mapping ⟨"u", "t"⟩ "k" ⟨200, Except.ok (some "https://loc")⟩).2.2
     "https://loc" (by decide) rfl (by decide)⟩

/-- C4: an ok status whose body lacks the `archiveLocation` field resolves to
`NotFoundError` — the same error kind as a non-success status — so `exists`
reports `(null, false)` rather than an error.  The status bound of the claim
is kept as a hypothesis; the conclusion holds for it. -/
theorem getMeta_missing_location (c : GithubActionsCache) (p : String)
    (keys : List String) (version : String) (res : QueryResponse)
    (hst : res.status < 400) (hbody : res.body = Except.ok none) :
    c.getMeta keys version res = Except.error CacheError.notFound ∧
    existsOp c p res = [(none, false)] := by
  have h1 : ∀ ks v, c.getMeta ks v res = Except.error CacheError.notFound := by
    intro ks v
    unfold GithubActionsCache.getMeta
    by_cases hok : resOk res.status = false
    · simp [hok]
    · simp [hok, hbody, truthyOpt]
  exact ⟨h1 keys version, by simp [existsOp, h1]⟩

/-- Witness for C4 at status 200 with a body missing the location field. -/
theorem getMeta_missing_location_witness :
    GithubActionsCache.getMeta ⟨"u", "t"⟩ ["k"] "10" ⟨200, Except.ok none⟩ =
      Except.error CacheError.notFound ∧
    existsOp ⟨"u", "t"⟩ "k" ⟨200, Except.ok none⟩ = [(none, false)] :=
  getMeta_missing_location ⟨"u", "t"⟩ "k" ["k"] "10" ⟨200, Except.ok none⟩
    (by decide) rfl

/-- C5: when resolution succeeds but the blob GET has a non-ok status or a
missing body, `get` fails with the plain error `Failed to fetch blob`, which
is distinct from the not-found kind — it is never converted into a miss. -/
theorem get_blob_fetch_failure (c : GithubActionsCache) (keys : List String)
    (version : String) (qres : QueryResponse) (bres : BlobResponse)
    (loc : String) (hmeta : c.getMeta keys version qres = Except.ok loc)
    (hfail : resOk bres.status = false ∨ bres.body = none) :
    c.get keys version qres bres =
      Except.error (CacheError.generic "Failed to fetch blob") ∧
    CacheError.generic "Failed to fetch blob" ≠ CacheError.notFound := by
  unfold GithubActionsCache.get
  rw [hmeta]
  rw [if_pos hfail]
  exact ⟨rfl, by decide⟩

/-- Witness for C5: a successful resolution followed by a status-500 blob
fetch fails with the non-miss error. -/
theorem get_blob_fetch_failure_witness :
    GithubActionsCache.get ⟨"u", "t"⟩ ["k"] "10"
        ⟨200, Except.ok (some "loc")⟩ ⟨500, some "b"⟩ =
      Except.error (CacheError.generic "Failed to fetch blob") :=
  (get_blob_fetch_failure ⟨"u", "t"⟩ ["k"] "10" ⟨200, Except.ok (some "loc")⟩
    ⟨500, some "b"⟩ "loc" rfl (Or.inl (by decide))).1

/-- C10: `exists` invokes the callback exactly once, and the invocation has
one of exactly three shapes, determined by the outcome of resolution:
`(null, true)` on success, `(null, false)` on not-found, and `(err, false)`
for any other error — the boolean argument in the error case is the concrete
value `false`. -/
theorem exists_callback_once (c : GithubActionsCache) (p : String)
    (res : QueryResponse) :
    (existsOp c p res).length = 1 ∧
    ((∃ loc, c.getMeta [p] VERSION res = Except.ok loc) →
      existsOp c p res = [(none, true)]) ∧
    (c.getMeta [p] VERSION res = Except.error CacheError.notFound →
      existsOp c p res = [(none, false)]) ∧
    (∀ e, e ≠ CacheError.notFound →
      c.getMeta [p] VERSION res = Except.error e →
      existsOp c p res = [(some e, false)]) := by
  refine ⟨?_, ?_, ?_, ?_⟩
  · rcases h : c.getMeta [p] VERSION res with e | loc
    · by_cases he : e = CacheError.notFound <;> simp [existsOp, h, he]
    · simp [existsOp, h]
  · rintro ⟨loc, h⟩
    simp [existsOp, h]
  · intro h
    simp [existsOp, h]
  · intro e he h
    simp [existsOp, h, he]

/-- Witness for C10: the three shapes at three concrete query responses. -/
theorem exists_callback_once_witness :
    existsOp ⟨"u", "t"⟩ "k" ⟨200, Except.ok (some "loc")⟩ = [(none, true)] ∧
    existsOp ⟨"u", "t"⟩ "k" ⟨404, Except.ok none⟩ = [(none, false)] ∧
    existsOp ⟨"u", "t"⟩ "k" ⟨200, Except.error "oops"⟩ =
      [(some (CacheError.jsonError "oops"), false)] :=
  ⟨(exists_callback_once ⟨"u", "t"⟩ "k" ⟨200, Except.ok (some "loc")⟩).2.1
     ⟨"loc", rfl⟩,
   (exists_callback_once ⟨"u", "t"⟩ "k" ⟨404, Except.ok none⟩).2.2.1 rfl,
   (exists_callback_once ⟨"u", "t"⟩ "k" ⟨200, Except.error "oops"⟩).2.2.2
     (CacheError.jsonError "oops") (by decide) rfl⟩

/-- C1: when every response is ok, closing the sink issues exactly
`ceil(L / CHUNK_SIZE)` chunk PATCHes followed by exactly one finalize POST
whose body carries the size `L`; for `L = 0` the chunk loop is skipped and
the trace is the single finalize POST with size 0. -/
theorem completeUpload_counts (u : Upload) (resp : Nat → Bool)
    (hresp : ∀ n, resp n = true) :
    (u.completeUpload resp).1 =
      (List.range (ceilDiv u.data.length CHUNK_SIZE)).map
        (fun k => UploadCall.patch (patchCallOf u.data k)) ++
      [UploadCall.finalizePost u.data.length] ∧
    (u.completeUpload resp).1.countP isPatch = ceilDiv u.data.length CHUNK_SIZE ∧
    (u.completeUpload resp).1.countP
      (fun c => decide (c = UploadCall.finalizePost u.data.length)) = 1 ∧
    (u.data.length = 0 → (u.completeUpload resp).1 = [UploadCall.finalizePost 0]) := by
  have htrace : (u.completeUpload resp).1 =
      (List.range (ceilDiv u.data.length CHUNK_SIZE)).map
        (fun k => UploadCall.patch (patchCallOf u.data k)) ++
      [UploadCall.finalizePost u.data.length] := by
    rw [completeUpload_trace_all_ok u resp hresp]
  refine ⟨htrace, ?_, ?_, ?_⟩
  · rw [htrace]
    simp [List.countP_append, List.countP_map, isPatch, Function.comp_def,
      List.countP_cons]
  · rw [htrace]
    simp [List.countP_append, List.countP_map, Function.comp_def,
      List.countP_cons]
  · intro hL
    have h0 : ceilDiv u.data.length CHUNK_SIZE = 0 := by
      rw [hL]
      decide
    rw [htrace, h0, hL]
    simp

/-- Witness for C1 at the empty payload: no chunk PATCH, one finalize POST
of size 0. -/
theorem completeUpload_counts_witness :
    ((Upload.mk "id" "u" "t" []).completeUpload (fun _ => true)).1 =
      [UploadCall.finalizePost 0] :=
  (completeUpload_counts ⟨"id", "u", "t", []⟩ (fun _ => true) (fun _ => rfl)).2.2.2 rfl

/-- C2: for a non-empty payload of length `L`, chunk `i` (for every
`i < ceil(L / CHUNK_SIZE)`) is PATCHed with a `Content-Range` header whose
start is `i * CHUNK_SIZE`, whose end is the inclusive offset of the chunk's
last byte (`min((i+1) * CHUNK_SIZE, L) - 1`), and whose total is `L`; the
body holds exactly the bytes `[i * CHUNK_SIZE, min((i+1) * CHUNK_SIZE, L))`:
consecutive ranges are adjacent, the last range ends at `L - 1`, and the
chunk bodies concatenate back to the payload (a partition of `[0, L)` with
no gaps or overlaps).  When every response is ok, the `i`-th call of the
close trace is exactly that PATCH. -/
theorem chunk_ranges (u : Upload) (hL : 0 < u.data.length) :
    (∀ i, i < ceilDiv u.data.length CHUNK_SIZE →
      (patchCallOf u.data i).rangeStart = i * CHUNK_SIZE ∧
      (patchCallOf u.data i).rangeTotal = u.data.length ∧
      (patchCallOf u.data i).body =
        jsSlice u.data (i * CHUNK_SIZE) (min ((i + 1) * CHUNK_SIZE) u.data.length) ∧
      (patchCallOf u.data i).body.length =
        min ((i + 1) * CHUNK_SIZE) u.data.length - i * CHUNK_SIZE ∧
      (patchCallOf u.data i).rangeEnd =
        ((min ((i + 1) * CHUNK_SIZE) u.data.length : Nat) : Int) - 1) ∧
    (∀ i, i + 1 < ceilDiv u.data.length CHUNK_SIZE →
      ((patchCallOf u.data (i + 1)).rangeStart : Int) =
        (patchCallOf u.data i).rangeEnd + 1) ∧
    (patchCallOf u.data (ceilDiv u.data.length CHUNK_SIZE - 1)).rangeEnd =
      (u.data.length : Int) - 1 ∧
    ((List.range (ceilDiv u.data.length CHUNK_SIZE)).map
        (fun i => (patchCallOf u.data i).body)).flatten = u.data ∧
    (∀ resp : Nat → Bool, (∀ n, resp n = true) →
      ∀ i, i < ceilDiv u.data.length CHUNK_SIZE →
        (u.completeUpload resp).1[i]? =
          some (UploadCall.patch (patchCallOf u.data i))) := by
  have hre : ∀ (d : List Nat) (i : Nat),
      (patchCallOf d i).rangeEnd =
        ((i * CHUNK_SIZE : Nat) : Int) + ((patchCallOf d i).body.length : Int) - 1 :=
    fun d i => rfl
  have hlen : ∀ i, i < ceilDiv u.data.length CHUNK_SIZE →
      (patchCallOf u.data i).body.length =
        min ((i + 1) * CHUNK_SIZE) u.data.length - i * CHUNK_SIZE := by
    intro i hi
    have hlt : i * CHUNK_SIZE < u.data.length := mul_lt_of_lt_ceilDiv hi
    simp only [patchCallOf, jsSlice, List.length_take, List.length_drop]
    omega
  have hrs : ∀ (d : List Nat) (j : Nat),
      (patchCallOf d j).rangeStart = j * CHUNK_SIZE := fun d j => rfl
  have hend : ∀ i, i < ceilDiv u.data.length CHUNK_SIZE →
      (patchCallOf u.data i).rangeEnd =
        ((min ((i + 1) * CHUNK_SIZE) u.data.length : Nat) : Int) - 1 := by
    intro i hi
    have hlt : i * CHUNK_SIZE < u.data.length := mul_lt_of_lt_ceilDiv hi
    have hle : i * CHUNK_SIZE ≤ (i + 1) * CHUNK_SIZE := by
      simp only [CHUNK_SIZE]
      omega
    rw [hre, hlen i hi]
    omega
  refine ⟨?_, ?_, ?_, ?_, ?_⟩
  · intro i hi
    exact ⟨rfl, rfl, rfl, hlen i hi, hend i hi⟩
  · intro i hi
    have h1 : (i + 1) * CHUNK_SIZE < u.data.length := mul_lt_of_lt_ceilDiv hi
    rw [hend i (by omega), hrs]
    omega
  · have hpos : 0 < ceilDiv u.data.length CHUNK_SIZE := by
      rcases Nat.eq_zero_or_pos (ceilDiv u.data.length CHUNK_SIZE) with h0 | h
      · exfalso
        have hmul := le_ceilDiv_mul u.data.length
        rw [h0, Nat.zero_mul] at hmul
        omega
      · exact h
    have hc : ceilDiv u.data.length CHUNK_SIZE - 1 + 1 =
        ceilDiv u.data.length CHUNK_SIZE := by omega
    have := hend (ceilDiv u.data.length CHUNK_SIZE - 1) (by omega)
    rw [hc] at this
    rw [this, min_eq_right (le_ceilDiv_mul u.data.length)]

  · have hmap : (List.range (ceilDiv u.data.length CHUNK_SIZE)).map
        (fun i => (patchCallOf u.data i).body) =
        (List.range (ceilDiv u.data.length CHUNK_SIZE)).map
        (fun i => (u.data.drop (i * CHUNK_SIZE)).take CHUNK_SIZE) :=
      List.map_congr_left (fun i _ => patch_body_take u.data i)
    rw [hmap,
      flatten_chunks (ceilDiv u.data.length CHUNK_SIZE) u.data (le_ceilDiv_mul _)]
  · intro resp hresp i hi
    rw [completeUpload_trace_all_ok u resp hresp]
    have hlt : i < (List.map (fun k => UploadCall.patch (patchCallOf u.data k))
        (List.range (ceilDiv u.data.length CHUNK_SIZE))).length := by
      simpa using hi
    simp [List.getElem?_append, hlt, List.getElem?_map, List.getElem?_range, hi]

/-- Witness for C2 at the one-byte payload `[7]`: one chunk covering
`bytes 0-0/1` whose body is the whole payload. -/
theorem chunk_ranges_witness :
    (patchCallOf [7] 0).rangeStart = 0 * CHUNK_SIZE ∧
    (patchCallOf [7] 0).rangeTotal = 1 ∧
    ((List.range (ceilDiv 1 CHUNK_SIZE)).map
        (fun i => (patchCallOf [7] i).body)).flatten = [7] :=
  ⟨((chunk_ranges ⟨"id", "u", "t", [7]⟩ (by decide)).1 0 (by decide)).1,
   ((chunk_ranges ⟨"id", "u", "t", [7]⟩ (by decide)).1 0 (by decide)).2.1,
   (chunk_ranges ⟨"id", "u", "t", [7]⟩ (by decide)).2.2.2.1⟩

/-- C7: chunk PATCHes are issued in strictly increasing byte-offset order;
the finalize POST appears in the trace only if every chunk response was ok;
and when chunk `j` is the first to receive a non-ok response, the trace stops
at chunk `j` — no later chunk PATCH and no finalize POST is issued — and the
close fails. -/
theorem completeUpload_sequencing (u : Upload) (resp : Nat → Bool) :
    List.Pairwise (· < ·) ((u.completeUpload resp).1.filterMap patchStart) ∧
    (UploadCall.finalizePost u.data.length ∈ (u.completeUpload resp).1 →
      ∀ k, k < ceilDiv u.data.length CHUNK_SIZE → resp k = true) ∧
    (∀ j, j < ceilDiv u.data.length CHUNK_SIZE → resp j = false →
      (∀ k, k < j → resp k = true) →
      u.completeUpload resp =
        ((List.range (j + 1)).map
          (fun k => UploadCall.patch (patchCallOf u.data k)), false)) := by
  have hpair : ∀ m : Nat, List.Pairwise (· < ·)
      (((List.range m).map
        (fun k => UploadCall.patch (patchCallOf u.data k))).filterMap patchStart) := by
    intro m
    have h1 : ((List.range m).map
        (fun k => UploadCall.patch (patchCallOf u.data k))).filterMap patchStart =
        (List.range m).map (fun k => k * CHUNK_SIZE) := by
      rw [List.filterMap_map]
      rw [show (patchStart ∘ fun k => UploadCall.patch (patchCallOf u.data k)) =
        (some ∘ fun k => k * CHUNK_SIZE) from rfl]
      rw [List.filterMap_eq_map]
    rw [h1, List.pairwise_map]
    refine (List.pairwise_lt_range m).imp ?_
    intro a b hab
    simp only [CHUNK_SIZE]
    omega
  obtain ⟨m, hm, hshape⟩ :=
    chunkLoop_shape u.data resp (ceilDiv u.data.length CHUNK_SIZE) 0
  simp only [Nat.zero_add] at hshape
  refine ⟨?_, ?_, ?_⟩
  · rcases hok : (chunkLoop u.data resp 0 (ceilDiv u.data.length CHUNK_SIZE)).2 with h | h
    · simp only [Upload.completeUpload, hok, Bool.false_eq_true, if_false]
      rw [hshape]
      exact hpair m
    · simp only [Upload.completeUpload, hok, if_true]
      rw [List.filterMap_append, hshape]
      simp only [List.filterMap_cons, List.filterMap_nil, patchStart]
      simpa using hpair m
  · intro hmem k hk
    rcases hok : (chunkLoop u.data resp 0 (ceilDiv u.data.length CHUNK_SIZE)).2 with h | h
    · exfalso
      simp only [Upload.completeUpload, hok, Bool.false_eq_true, if_false] at hmem
      rw [hshape] at hmem
      obtain ⟨a, _, ha⟩ := List.mem_map.mp hmem
      exact UploadCall.noConfusion ha
    · have := chunkLoop_ok_resp u.data resp (ceilDiv u.data.length CHUNK_SIZE) 0 hok k hk
      simpa using this
  · intro j hj hfail hok
    have habort := chunkLoop_abort u.data resp j (ceilDiv u.data.length CHUNK_SIZE) 0
      hj (by simpa using hfail) (fun k hk => by simpa using hok k hk)
    simp only [Nat.zero_add] at habort
    simp only [Upload.completeUpload, habort, Bool.false_eq_true, if_false]

/-- Witness for C7: a one-byte payload whose first chunk PATCH fails — the
trace is that single PATCH and the close fails. -/
theorem completeUpload_sequencing_witness :
    (Upload.mk "id" "u" "t" [1]).completeUpload (fun _ => false) =
      ((List.range 1).map (fun k => UploadCall.patch (patchCallOf [1] k)), false) :=
  (completeUpload_sequencing ⟨"id", "u", "t", [1]⟩ (fun _ => false)).2.2 0
    (by decide) rfl (fun k hk => absurd hk (by omega))

end GhaCache
